import Mathlib

/-!
Verification of the sinfo node report normalization pipeline
(`src/slurm_state`, node report kind).

The source consists of a declarative field registry `NODE_FIELD_MAP`
mapping each raw sinfo node field to a translator (copy / ignore /
rename), and a generator that reads the `"nodes"` list out of a decoded
sinfo JSON report, normalizes each raw node record field by field, and
yields the canonical records one at a time, raising `ValueError` on the
first field name absent from the registry.

The embedding below models JSON values, Python dict assignment (the
canonical record is built by `res[key] = value` updates), the registry,
the per-record normalization loop, and the generator as a function from
the decoded report value to the finite sequence of records yielded
before the generator either finishes or raises.
-/

namespace Clockwork

/-- JSON values, as produced by decoding a sinfo report with `json.load`.
Numbers occurring in these reports are integers. -/
inductive Json where
  | null : Json
  | bool (b : Bool) : Json
  | num (n : Int) : Json
  | str (s : String) : Json
  | arr (elems : List Json) : Json
  | obj (fields : List (String × Json)) : Json

/-- Python exceptions that the sinfo node pipeline can raise. -/
inductive PyErr where
  | valueError (msg : String) : PyErr
  | keyError (key : String) : PyErr
  | typeError (msg : String) : PyErr
  | attributeError (msg : String) : PyErr
deriving DecidableEq, Repr

/-- Python dict assignment `d[k] = v` on a dict represented as an
insertion-ordered association list: an existing key keeps its position
and gets the new value, a fresh key is appended at the end. -/
def dictSet (d : List (String × Json)) (k : String) (v : Json) :
    List (String × Json) :=
  if d.any (fun p => p.1 = k) then
    d.map (fun p => if p.1 = k then (k, v) else p)
  else
    d ++ [(k, v)]

/-- Modelled from the spec: the translator helpers `copy`, `ignore` and
`rename` are imported by the source from `slurm_state.helpers.parser_helper`,
which is not part of the sources available here. Following the spec's data
model ("Four canonical behaviors: `copy`: store value under its original key
unchanged. `rename(new_key)`: store value under `new_key` unchanged.
`ignore`: discard the value.") they are represented as the spec's tagged
union of translator variants. The `decode` variant does not occur in the
node field registry and is therefore not modelled. -/
inductive Translator where
  | copy : Translator
  | ignore : Translator
  | rename (newKey : String) : Translator
deriving DecidableEq, Repr

/-- Modelled from the spec: running a translator on `(field_name, raw_value,
output_record)`; `copy` stores the value under its original key unchanged,
`rename new_key` stores it under `new_key` unchanged, `ignore` does nothing. -/
def Translator.apply : Translator → String → Json → List (String × Json) →
    List (String × Json)
  | .copy, k, v, res => dictSet res k v
  | .ignore, _, _, res => res
  | .rename newKey, _, v, res => dictSet res newKey v

/-- The keys a translator registered for field `k` can write in the output
record: `copy` writes `k` itself, `ignore` writes nothing, `rename nk`
writes `nk`. -/
def Translator.outKeys : Translator → String → List String
  | .copy, k => [k]
  | .ignore, _ => []
  | .rename newKey, _ => [newKey]

/-- The node field registry `NODE_FIELD_MAP` of the source, entry for entry
in source order: each raw sinfo node field is mapped to its translator. -/
def NODE_FIELD_MAP : List (String × Translator) :=
  [("architecture", .rename "arch"),
   ("burstbuffer_network_address", .ignore),
   ("boards", .ignore),
   ("boot_time", .ignore),
   ("comment", .copy),
   ("cores", .copy),
   ("cpu_binding", .ignore),
   ("cpu_load", .ignore),
   ("cpus", .copy),
   ("extra", .ignore),
   ("free_memory", .ignore),
   ("last_busy", .copy),
   ("features", .copy),
   ("active_features", .ignore),
   ("gres", .copy),
   ("gres_drained", .ignore),
   ("gres_used", .ignore),
   ("mcs_label", .ignore),
   ("name", .copy),
   ("next_state_after_reboot", .ignore),
   ("address", .rename "addr"),
   ("hostname", .ignore),
   ("state", .copy),
   ("state_flags", .ignore),
   ("next_state_after_reboot_flags", .ignore),
   ("operating_system", .ignore),
   ("owner", .ignore),
   ("partitions", .ignore),
   ("port", .ignore),
   ("real_memory", .rename "memory"),
   ("reason", .copy),
   ("reason_changed_at", .copy),
   ("reason_set_by_user", .ignore),
   ("slurmd_start_time", .ignore),
   ("sockets", .ignore),
   ("threads", .ignore),
   ("temporary_disk", .ignore),
   ("weight", .ignore),
   ("tres", .copy),
   ("slurmd_version", .ignore),
   ("alloc_memory", .ignore),
   ("alloc_cpus", .ignore),
   ("idle_cpus", .ignore),
   ("tres_used", .copy),
   ("tres_weighted", .ignore)]

/-- The inner loop of the source's generator over `src_node.items()`:
look each field key up in `NODE_FIELD_MAP` (`.get(k, None)`), raise
`ValueError(f"Unknown field in sinfo node output: {k}")` when absent,
otherwise run the translator on the canonical record built so far. -/
def normalizeFields : List (String × Json) → List (String × Json) →
    Except PyErr (List (String × Json))
  | [], res => .ok res
  | (k, v) :: rest, res =>
    match NODE_FIELD_MAP.lookup k with
    | none => .error (.valueError ("Unknown field in sinfo node output: " ++ k))
    | some t => normalizeFields rest (t.apply k v res)

/-- Normalization of one raw node record: the canonical record starts as a
fresh empty dict (`res_node = dict()`) and every field of the raw record is
translated into it. -/
def normalizeNode (src : List (String × Json)) :
    Except PyErr (List (String × Json)) :=
  normalizeFields src []

/-- Python iteration over the value found under `"nodes"`: a list yields its
elements, a dict yields its keys, a string yields its one-character
substrings, anything else raises `TypeError`. -/
def pyIterate : Json → Except PyErr (List Json)
  | .arr elems => .ok elems
  | .obj fields => .ok (fields.map (fun p => .str p.1))
  | .str s => .ok (s.data.map (fun c => .str (String.mk [c])))
  | _ => .error (.typeError "object is not iterable")

/-- Python attribute access `src_node.items()`: only a dict has `items`. -/
def pyItems : Json → Except PyErr (List (String × Json))
  | .obj fields => .ok fields
  | _ => .error (.attributeError "object has no attribute items")

/-- The observable behaviour of fully consuming the generator: the finite
list of canonical records yielded, in order, and the exception that stopped
it (`none` when it ran to completion). -/
structure GenOutput where
  yielded : List (List (String × Json))
  err : Option PyErr

/-- The per-element loop `for src_node in src_nodes` of the source's
generator: each element must be a dict, is normalized, and its canonical
record is yielded before the next element is read; the first exception
stops the generator with all earlier records already yielded. -/
def runNodes : List Json → GenOutput
  | [] => ⟨[], none⟩
  | x :: rest =>
    match pyItems x with
    | .error e => ⟨[], some e⟩
    | .ok src =>
      match normalizeNode src with
      | .error e => ⟨[], some e⟩
      | .ok record =>
        let r := runNodes rest
        ⟨record :: r.yielded, r.err⟩

/-- The source's generator over a decoded sinfo report: look up
`sinfo_data["nodes"]` (a missing key raises `KeyError`, a non-dict report
raises `TypeError`), iterate over the value found, and normalize and yield
each raw node record in turn. -/
def nodeReportRecords (sinfo_data : Json) : GenOutput :=
  match sinfo_data with
  | .obj fields =>
    match fields.lookup "nodes" with
    | none => ⟨[], some (.keyError "nodes")⟩
    | some nodesVal =>
      match pyIterate nodesVal with
      | .error e => ⟨[], some e⟩
      | .ok src_nodes => runNodes src_nodes
  | _ => ⟨[], some (.typeError "object is not subscriptable")⟩

/-! ### Association-list and dict-update lemmas -/

/-- A successful lookup in an association list comes from one of its entries. -/
theorem mem_of_lookup_eq_some {β : Type} {l : List (String × β)} {k : String}
    {b : β} (h : l.lookup k = some b) : (k, b) ∈ l := by
  induction l with
  | nil => simp at h
  | cons p rest ih =>
    obtain ⟨k1, b1⟩ := p
    rw [List.lookup_cons] at h
    split at h
    · next hbeq =>
      obtain rfl := eq_of_beq hbeq
      injection h with h
      subst h
      exact List.mem_cons_self _ _
    · exact List.mem_cons_of_mem _ (ih h)

/-- A lookup succeeds exactly when the key occurs in the association list. -/
theorem lookup_isSome_iff {β : Type} (l : List (String × β)) (k : String) :
    (l.lookup k).isSome = true ↔ k ∈ l.map Prod.fst := by
  induction l with
  | nil => simp
  | cons p rest ih =>
    obtain ⟨k1, b1⟩ := p
    rw [List.lookup_cons]
    by_cases hk : k = k1
    · subst hk
      simp
    · rw [beq_eq_false_iff_ne.mpr hk]
      simp [ih, hk]

/-- Looking a key up at a matching head entry returns its value. -/
theorem lookup_cons_eq {β : Type} (k : String) (b : β) (l : List (String × β)) :
    ((k, b) :: l).lookup k = some b := by
  simp [List.lookup_cons]

/-- Looking a key up skips a head entry with a different key. -/
theorem lookup_cons_ne {β : Type} {a k : String} (h : a ≠ k) (b : β)
    (l : List (String × β)) : ((k, b) :: l).lookup a = l.lookup a := by
  simp [List.lookup_cons, beq_eq_false_iff_ne.mpr h]

/-- Lookup distributes over append, preferring the left list. -/
theorem lookup_append {β : Type} (d e : List (String × β)) (a : String) :
    (d ++ e).lookup a =
      match d.lookup a with
      | some b => some b
      | none => e.lookup a := by
  induction d with
  | nil => simp
  | cons p rest ih =>
    obtain ⟨k1, b1⟩ := p
    by_cases ha : a = k1
    · subst ha
      rw [List.cons_append, lookup_cons_eq, lookup_cons_eq]
    · rw [List.cons_append, lookup_cons_ne ha, lookup_cons_ne ha, ih]

/-- Overwriting every entry keyed `k` with `(k, v)` leaves other lookups
unchanged and makes the lookup of `k` return `v` when `k` was present. -/
theorem lookup_map_set (d : List (String × Json)) (k a : String) (v : Json) :
    (d.map (fun p => if p.1 = k then (k, v) else p)).lookup a =
      if a = k then (d.lookup k).map (fun _ => v) else d.lookup a := by
  induction d with
  | nil => simp
  | cons p rest ih =>
    obtain ⟨k1, b1⟩ := p
    by_cases hk1 : k1 = k
    · subst hk1
      rw [List.map_cons, if_pos rfl]
      by_cases ha : a = k1
      · subst ha
        rw [lookup_cons_eq, lookup_cons_eq, if_pos rfl]
        rfl
      · rw [lookup_cons_ne ha, lookup_cons_ne ha, ih, if_neg ha, if_neg ha]
    · rw [List.map_cons, if_neg (show ¬((k1, b1).1 = k) from hk1)]
      by_cases ha : a = k1
      · subst ha
        rw [lookup_cons_eq, lookup_cons_eq, if_neg hk1]
      · rw [lookup_cons_ne ha, lookup_cons_ne ha, ih]
        by_cases hak : a = k
        · subst hak
          rw [if_pos rfl, if_pos rfl,
            lookup_cons_ne (fun h => hk1 h.symm)]
        · rw [if_neg hak, if_neg hak]

/-- The keys of a dict after `d[k] = v` are `k` together with the keys of
`d`. -/
theorem mem_keys_dictSet (d : List (String × Json)) (k a : String) (v : Json) :
    a ∈ (dictSet d k v).map Prod.fst ↔ a = k ∨ a ∈ d.map Prod.fst := by
  unfold dictSet
  split
  · next hany =>
    have hkeys : (d.map (fun p => if p.1 = k then (k, v) else p)).map Prod.fst
        = d.map Prod.fst := by
      rw [List.map_map]
      refine List.map_congr_left (fun p _ => ?_)
      by_cases hp : p.1 = k
      · simp [hp]
      · simp [hp]
    rw [hkeys]
    have hkmem : k ∈ d.map Prod.fst := by
      obtain ⟨p, hp, hpk⟩ := List.any_eq_true.mp hany
      exact List.mem_map.mpr ⟨p, hp, of_decide_eq_true hpk⟩
    constructor
    · exact fun h => Or.inr h
    · rintro (rfl | h)
      · exact hkmem
      · exact h
  · simp [or_comm]

/-- Lookup after the Python dict assignment `d[k] = v`: the key `k` now maps
to `v` and every other key is unaffected. -/
theorem lookup_dictSet (d : List (String × Json)) (k a : String) (v : Json) :
    (dictSet d k v).lookup a = if a = k then some v else d.lookup a := by
  unfold dictSet
  split
  · next hany =>
    rw [lookup_map_set]
    by_cases ha : a = k
    · subst ha
      rw [if_pos rfl, if_pos rfl]
      obtain ⟨p, hp, hpk⟩ := List.any_eq_true.mp hany
      have : a ∈ d.map Prod.fst :=
        List.mem_map.mpr ⟨p, hp, of_decide_eq_true hpk⟩
      obtain ⟨b, hb⟩ := Option.isSome_iff_exists.mp ((lookup_isSome_iff d a).mpr this)
      rw [hb]
      rfl
    · rw [if_neg ha, if_neg ha]
  · next hany =>
    rw [lookup_append]
    have hnone : d.lookup k = none := by
      rw [← Option.not_isSome_iff_eq_none]
      intro hsome
      obtain ⟨p, hpmem, hpk⟩ := List.mem_map.mp ((lookup_isSome_iff d k).mp hsome)
      exact hany (List.any_eq_true.mpr ⟨p, hpmem, decide_eq_true hpk⟩)
    by_cases ha : a = k
    · subst ha
      rw [hnone, if_pos rfl]
      exact lookup_cons_eq a v []
    · rw [if_neg ha]
      cases h : d.lookup a with
      | none => exact (lookup_cons_ne ha v []).trans rfl
      | some b => rfl

/-! ### Characterization of the per-record normalization loop -/

/-- Whether the translator registered for raw field `k` writes the output
key `a`: `copy` writes the field's own key, `rename nk` writes `nk`,
`ignore` and unregistered fields write nothing. -/
def writesTo (k a : String) : Bool :=
  match NODE_FIELD_MAP.lookup k with
  | some .copy => a == k
  | some .ignore => false
  | some (.rename nk) => a == nk
  | none => false

/-- The value written to output key `a` by the last field of `src` whose
translator writes `a`, if any: later fields overwrite earlier ones. -/
def lastWriter : List (String × Json) → String → Option Json
  | [], _ => none
  | (k, v) :: rest, a =>
    match lastWriter rest a with
    | some w => some w
    | none => if writesTo k a then some v else none

/-- `writesTo` agrees with the registered translator's `outKeys`. -/
theorem writesTo_iff (k a : String) :
    writesTo k a = true ↔
      ∃ t, NODE_FIELD_MAP.lookup k = some t ∧ a ∈ t.outKeys k := by
  unfold writesTo
  cases h : NODE_FIELD_MAP.lookup k with
  | none => simp
  | some t => cases t <;> simp [Translator.outKeys, beq_iff_eq]

/-- Applying the translator registered for field `k` writes exactly the
keys `writesTo k` says it writes, with the raw value, and leaves every
other key of the record being built untouched. -/
theorem lookup_apply (t : Translator) (k a : String) (v : Json)
    (res : List (String × Json)) (ht : NODE_FIELD_MAP.lookup k = some t) :
    (t.apply k v res).lookup a =
      if writesTo k a then some v else res.lookup a := by
  unfold writesTo
  rw [ht]
  cases t with
  | copy =>
    show (dictSet res k v).lookup a = _
    rw [lookup_dictSet]
    by_cases ha : a = k
    · rw [if_pos ha, if_pos (by simp [ha])]
    · rw [if_neg ha, if_neg (by simp [ha])]
  | ignore => rfl
  | rename nk =>
    show (dictSet res nk v).lookup a = _
    rw [lookup_dictSet]
    by_cases ha : a = nk
    · rw [if_pos ha, if_pos (by simp [ha])]
    · rw [if_neg ha, if_neg (by simp [ha])]

/-- When every field of the raw record is registered, normalization
succeeds and the lookup of any output key is determined by the last field
whose translator writes it. -/
theorem normalizeFields_ok_lookup (src : List (String × Json))
    (res : List (String × Json))
    (h : ∀ p ∈ src, (NODE_FIELD_MAP.lookup p.1).isSome = true) :
    ∃ out, normalizeFields src res = .ok out ∧
      ∀ a, out.lookup a =
        match lastWriter src a with
        | some w => some w
        | none => res.lookup a := by
  induction src generalizing res with
  | nil => exact ⟨res, rfl, fun a => rfl⟩
  | cons p rest ih =>
    obtain ⟨k, v⟩ := p
    obtain ⟨t, ht⟩ :=
      Option.isSome_iff_exists.mp (h (k, v) (List.mem_cons_self _ _))
    have hrest : ∀ p ∈ rest, (NODE_FIELD_MAP.lookup p.1).isSome = true :=
      fun p hp => h p (List.mem_cons_of_mem _ hp)
    obtain ⟨out, hout, hlook⟩ := ih (t.apply k v res) hrest
    refine ⟨out, ?_, ?_⟩
    · simp only [normalizeFields, ht]
      exact hout
    · intro a
      rw [hlook a]
      cases hlw : lastWriter rest a with
      | some w => simp only [lastWriter, hlw]
      | none =>
        simp only [lastWriter, hlw]
        rw [lookup_apply t k a v res ht]
        by_cases hw : writesTo k a = true
        · rw [if_pos hw, if_pos hw]
        · rw [if_neg hw, if_neg hw]

/-- When the raw record has a field absent from the registry, normalization
raises the unknown-field `ValueError` naming some absent field. -/
theorem normalizeFields_error_of_unknown (src : List (String × Json))
    (res : List (String × Json)) (k0 : String)
    (hmem : k0 ∈ src.map Prod.fst) (hunk : NODE_FIELD_MAP.lookup k0 = none) :
    ∃ k1, k1 ∈ src.map Prod.fst ∧ NODE_FIELD_MAP.lookup k1 = none ∧
      normalizeFields src res = .error (.valueError
        ("Unknown field in sinfo node output: " ++ k1)) := by
  induction src generalizing res with
  | nil => simp at hmem
  | cons p rest ih =>
    obtain ⟨k, v⟩ := p
    cases ht : NODE_FIELD_MAP.lookup k with
    | none =>
      exact ⟨k, by simp, ht, by simp only [normalizeFields, ht]⟩
    | some t =>
      have hk0rest : k0 ∈ rest.map Prod.fst := by
        rcases (by simpa using hmem : k0 = k ∨ ∃ x, (k0, x) ∈ rest) with h | ⟨x, hx⟩
        · rw [h] at hunk
          rw [hunk] at ht
          exact absurd ht (by simp)
        · exact List.mem_map.mpr ⟨(k0, x), hx, rfl⟩
      obtain ⟨k1, h1, h2, h3⟩ := ih (t.apply k v res) hk0rest
      refine ⟨k1, by simp [h1], h2, ?_⟩
      simp only [normalizeFields, ht]
      exact h3

/-! ### Facts about the node field registry -/

/-- No rename target of the registry (`arch`, `addr`, `memory`) is itself a
registered raw field name. -/
theorem rename_target_not_source {k nk : String}
    (h : NODE_FIELD_MAP.lookup k = some (.rename nk)) :
    NODE_FIELD_MAP.lookup nk = none := by
  have hmem := mem_of_lookup_eq_some h
  have hall : NODE_FIELD_MAP.all (fun p =>
      match p.2 with
      | .rename nk => (NODE_FIELD_MAP.lookup nk).isNone
      | _ => true) = true := by decide
  have := List.all_eq_true.mp hall _ hmem
  simpa using this

/-- Distinct registered raw fields are renamed to distinct targets. -/
theorem rename_target_injective {k1 k2 nk : String}
    (h1 : NODE_FIELD_MAP.lookup k1 = some (.rename nk))
    (h2 : NODE_FIELD_MAP.lookup k2 = some (.rename nk)) : k1 = k2 := by
  have m1 := mem_of_lookup_eq_some h1
  have m2 := mem_of_lookup_eq_some h2
  have hall : NODE_FIELD_MAP.all (fun p => NODE_FIELD_MAP.all (fun q =>
      match p.2, q.2 with
      | .rename a, .rename b => a != b || p.1 == q.1
      | _, _ => true)) = true := by decide
  have := List.all_eq_true.mp (List.all_eq_true.mp hall _ m1) _ m2
  simpa using this

/-! ### Unique-writer lemmas -/

/-- If no field of `src` writes key `a`, there is no last writer. -/
theorem lastWriter_eq_none {src : List (String × Json)} {a : String}
    (h : ∀ p ∈ src, writesTo p.1 a = false) : lastWriter src a = none := by
  induction src with
  | nil => rfl
  | cons p rest ih =>
    obtain ⟨k, v⟩ := p
    have hrest := ih (fun q hq => h q (List.mem_cons_of_mem _ hq))
    simp only [lastWriter, hrest]
    rw [h (k, v) (List.mem_cons_self _ _)]
    rfl

/-- The last writer of key `a` when exactly one field of `src` writes `a`
and the raw record has no duplicate field names. -/
theorem lastWriter_eq_of_unique {src : List (String × Json)} {a k : String}
    {v : Json} (hmem : (k, v) ∈ src) (hw : writesTo k a = true)
    (huniq : ∀ p ∈ src, writesTo p.1 a = true → p.1 = k)
    (hnd : (src.map Prod.fst).Nodup) :
    lastWriter src a = some v := by
  induction src with
  | nil => simp at hmem
  | cons p rest ih =>
    obtain ⟨k1, v1⟩ := p
    rw [List.map_cons] at hnd
    obtain ⟨hnotin, hndrest⟩ := List.nodup_cons.mp hnd
    rcases List.mem_cons.mp hmem with heq | hmemrest
    · injection heq with hk hv
      subst hk
      subst hv
      have hnone : lastWriter rest a = none := by
        apply lastWriter_eq_none
        intro q hq
        by_contra hq'
        have hqk := huniq q (List.mem_cons_of_mem _ hq)
          (eq_true_of_ne_false hq')
        exact hnotin (hqk ▸ List.mem_map.mpr ⟨q, hq, rfl⟩)
      simp only [lastWriter, hnone]
      rw [hw]
      rfl
    · have hrest := ih hmemrest
        (fun q hq h' => huniq q (List.mem_cons_of_mem _ hq) h') hndrest
      simp only [lastWriter, hrest]

/-- A field registered `rename nk` ends up, after successful normalization
of a duplicate-free raw record, as the binding of `nk` (with its raw value
unchanged), and its original key is absent from the canonical record. -/
theorem rename_field_spec (src : List (String × Json)) (k nk : String)
    (v : Json)
    (hall : ∀ p ∈ src, (NODE_FIELD_MAP.lookup p.1).isSome = true)
    (hnd : (src.map Prod.fst).Nodup)
    (hmem : (k, v) ∈ src)
    (ht : NODE_FIELD_MAP.lookup k = some (.rename nk)) :
    ∃ out, normalizeNode src = .ok out ∧
      out.lookup nk = some v ∧ out.lookup k = none := by
  obtain ⟨out, hout, hlook⟩ := normalizeFields_ok_lookup src [] hall
  refine ⟨out, hout, ?_, ?_⟩
  · rw [hlook nk]
    have hw : writesTo k nk = true := by
      unfold writesTo
      rw [ht]
      simp
    have huniq : ∀ p ∈ src, writesTo p.1 nk = true → p.1 = k := by
      intro p hp hpw
      obtain ⟨t', ht', hkmem⟩ := (writesTo_iff _ _).mp hpw
      cases t' with
      | copy =>
        have hpk : nk = p.1 := by simpa [Translator.outKeys] using hkmem
        rw [← hpk] at ht'
        rw [rename_target_not_source ht] at ht'
        exact absurd ht' (by simp)
      | ignore => simp [Translator.outKeys] at hkmem
      | rename m =>
        have hm : nk = m := by simpa [Translator.outKeys] using hkmem
        subst hm
        exact rename_target_injective ht' ht
    rw [lastWriter_eq_of_unique hmem hw huniq hnd]
  · rw [hlook k]
    have hnone : lastWriter src k = none := by
      apply lastWriter_eq_none
      intro p hp
      by_contra h'
      obtain ⟨t', ht', hkmem⟩ :=
        (writesTo_iff _ _).mp (eq_true_of_ne_false h')
      cases t' with
      | copy =>
        have hpk : k = p.1 := by simpa [Translator.outKeys] using hkmem
        rw [← hpk] at ht'
        exact absurd (ht.symm.trans ht') (by simp)
      | ignore => simp [Translator.outKeys] at hkmem
      | rename m =>
        have hm : k = m := by simpa [Translator.outKeys] using hkmem
        subst hm
        rw [rename_target_not_source ht'] at ht
        exact absurd ht (by simp)
    rw [hnone]
    rfl

/-- A field registered `copy` ends up, after successful normalization of a
duplicate-free raw record, as the binding of its own key with its raw value
unchanged. -/
theorem copy_field_spec (src : List (String × Json)) (k : String) (v : Json)
    (hall : ∀ p ∈ src, (NODE_FIELD_MAP.lookup p.1).isSome = true)
    (hnd : (src.map Prod.fst).Nodup)
    (hmem : (k, v) ∈ src)
    (ht : NODE_FIELD_MAP.lookup k = some .copy) :
    ∃ out, normalizeNode src = .ok out ∧ out.lookup k = some v := by
  obtain ⟨out, hout, hlook⟩ := normalizeFields_ok_lookup src [] hall
  refine ⟨out, hout, ?_⟩
  rw [hlook k]
  have hw : writesTo k k = true := by
    unfold writesTo
    rw [ht]
    simp
  have huniq : ∀ p ∈ src, writesTo p.1 k = true → p.1 = k := by
    intro p hp hpw
    obtain ⟨t', ht', hkmem⟩ := (writesTo_iff _ _).mp hpw
    cases t' with
    | copy =>
      have hpk : k = p.1 := by simpa [Translator.outKeys] using hkmem
      exact hpk.symm
    | ignore => simp [Translator.outKeys] at hkmem
    | rename m =>
      have hm : k = m := by simpa [Translator.outKeys] using hkmem
      subst hm
      rw [rename_target_not_source ht'] at ht
      exact absurd ht (by simp)
  rw [lastWriter_eq_of_unique hmem hw huniq hnd]

/-- There is a last writer of key `a` exactly when some field of the raw
record writes `a`. -/
theorem lastWriter_isSome_iff (src : List (String × Json)) (a : String) :
    (lastWriter src a).isSome = true ↔ ∃ p ∈ src, writesTo p.1 a = true := by
  induction src with
  | nil => simp [lastWriter]
  | cons p rest ih =>
    obtain ⟨k, v⟩ := p
    simp only [lastWriter]
    cases hlw : lastWriter rest a with
    | some w =>
      constructor
      · intro _
        obtain ⟨q, hq, hqw⟩ := ih.mp (by rw [hlw]; rfl)
        exact ⟨q, List.mem_cons_of_mem _ hq, hqw⟩
      · intro _
        rfl
    | none =>
      cases hwb : writesTo k a
      · constructor
        · intro hsome
          simp at hsome
        · rintro ⟨q, hq, hqw⟩
          rcases List.mem_cons.mp hq with rfl | hqrest
          · rw [hqw] at hwb
            exact absurd hwb (by simp)
          · have := ih.mpr ⟨q, hqrest, hqw⟩
            rw [hlw] at this
            exact absurd this (by simp)
      · constructor
        · intro _
          exact ⟨(k, v), List.mem_cons_self _ _, hwb⟩
        · intro _
          simp

/-- When every field of the raw record is registered, normalization succeeds
and the canonical record's key set is exactly the set of keys the registered
translators produce for those fields. -/
theorem normalizeNode_keys (src : List (String × Json))
    (hall : ∀ p ∈ src, (NODE_FIELD_MAP.lookup p.1).isSome = true) :
    ∃ out, normalizeNode src = .ok out ∧
      ∀ a, a ∈ out.map Prod.fst ↔ ∃ p ∈ src, ∃ t,
        NODE_FIELD_MAP.lookup p.1 = some t ∧ a ∈ t.outKeys p.1 := by
  obtain ⟨out, hout, hlook⟩ := normalizeFields_ok_lookup src [] hall
  refine ⟨out, hout, fun a => ?_⟩
  rw [← lookup_isSome_iff, hlook a]
  constructor
  · intro hsome
    cases hlw : lastWriter src a with
    | none =>
      rw [hlw] at hsome
      simp at hsome
    | some w =>
      obtain ⟨p, hp, hpw⟩ := (lastWriter_isSome_iff src a).mp (by rw [hlw]; rfl)
      obtain ⟨t, ht, hmem⟩ := (writesTo_iff _ _).mp hpw
      exact ⟨p, hp, t, ht, hmem⟩
  · rintro ⟨p, hp, t, ht, hmem⟩
    have hpw : writesTo p.1 a = true := (writesTo_iff _ _).mpr ⟨t, ht, hmem⟩
    obtain ⟨w, hw⟩ := Option.isSome_iff_exists.mp
      ((lastWriter_isSome_iff src a).mpr ⟨p, hp, hpw⟩)
    rw [hw]
    rfl

/-- Every raw record known to the registry normalizes successfully. -/
theorem normalizeNode_ok_of_known (src : List (String × Json))
    (hall : ∀ p ∈ src, (NODE_FIELD_MAP.lookup p.1).isSome = true) :
    ∃ out, normalizeNode src = .ok out := by
  obtain ⟨out, hout, _⟩ := normalizeFields_ok_lookup src [] hall
  exact ⟨out, hout⟩

/-- A list of raw records known to the registry has a list of canonical
forms. -/
theorem exists_forall2_ok (goods : List (List (String × Json)))
    (h : ∀ g ∈ goods, ∀ p ∈ g, (NODE_FIELD_MAP.lookup p.1).isSome = true) :
    ∃ outs, List.Forall₂ (fun g o => normalizeNode g = Except.ok o) goods outs := by
  induction goods with
  | nil => exact ⟨[], List.Forall₂.nil⟩
  | cons g rest ih =>
    obtain ⟨outs, houts⟩ := ih (fun q hq => h q (List.mem_cons_of_mem _ hq))
    obtain ⟨out, hout⟩ := normalizeNode_ok_of_known g (h g (List.mem_cons_self _ _))
    exact ⟨out :: outs, List.Forall₂.cons hout houts⟩

/-- Dropping the `ignore`-mapped fields of a raw record does not change
normalization at all: the `ignore` translator contributes nothing. -/
theorem normalizeFields_filter_ignore (src : List (String × Json))
    (res : List (String × Json)) :
    normalizeFields src res = normalizeFields
      (src.filter (fun p =>
        match NODE_FIELD_MAP.lookup p.1 with
        | some .ignore => false
        | _ => true)) res := by
  induction src generalizing res with
  | nil => rfl
  | cons p rest ih =>
    obtain ⟨k, v⟩ := p
    rw [List.filter_cons]
    cases ht : NODE_FIELD_MAP.lookup k with
    | none =>
      simp only [ht]
      rw [if_pos trivial]
      simp only [normalizeFields, ht]
    | some t =>
      cases t with
      | ignore =>
        simp only [ht]
        rw [if_neg (by simp)]
        simp only [normalizeFields, ht]
        exact ih res
      | copy =>
        simp only [ht]
        rw [if_pos trivial]
        simp only [normalizeFields, ht]
        exact ih _
      | rename nk =>
        simp only [ht]
        rw [if_pos trivial]
        simp only [normalizeFields, ht]
        exact ih _

/-! ### Generator-level lemmas -/

/-- Consuming the generator over well-formed records followed by a failing
record yields exactly the canonical forms of the leading records, in order,
and then stops with the failing record's exception: nothing at or after the
failing record is yielded. -/
theorem runNodes_prefix_error (goods : List (List (String × Json)))
    (outs : List (List (String × Json))) (bad : List (String × Json))
    (rest : List Json) (e : PyErr)
    (hg : List.Forall₂ (fun g o => normalizeNode g = Except.ok o) goods outs)
    (hb : normalizeNode bad = .error e) :
    runNodes (goods.map Json.obj ++ Json.obj bad :: rest) = ⟨outs, some e⟩ := by
  induction hg with
  | nil =>
    simp only [List.map_nil, List.nil_append, runNodes, pyItems, hb]
  | cons hgo hrest ih =>
    simp only [List.map_cons, List.cons_append, runNodes, pyItems, hgo,
      List.append_eq, ih]

/-! ### Claims -/

/-- C1: for every raw node record containing at least one field key that has
no entry in the node field registry, normalization fails with an error whose
message names an offending field together with the report kind
("sinfo node output"), and never returns a (partial) canonical record for
that raw record. -/
theorem C1_unknown_field_fails (src : List (String × Json)) (k0 : String)
    (hmem : k0 ∈ src.map Prod.fst) (hunk : NODE_FIELD_MAP.lookup k0 = none) :
    (∃ k1, k1 ∈ src.map Prod.fst ∧ NODE_FIELD_MAP.lookup k1 = none ∧
      normalizeNode src = .error (.valueError
        ("Unknown field in sinfo node output: " ++ k1))) ∧
    ∀ out, normalizeNode src ≠ .ok out := by
  obtain ⟨k1, h1, h2, h3⟩ :=
    normalizeFields_error_of_unknown src [] k0 hmem hunk
  have h3' : normalizeNode src = .error (.valueError
      ("Unknown field in sinfo node output: " ++ k1)) := h3
  refine ⟨⟨k1, h1, h2, h3'⟩, fun out hout => ?_⟩
  rw [h3'] at hout
  exact Except.noConfusion hout

/-- Witness for C1 at the raw record `{"new_future_field": 1}`. -/
theorem C1_witness :
    (∃ k1, k1 ∈ ([("new_future_field", Json.num 1)] :
        List (String × Json)).map Prod.fst ∧
      NODE_FIELD_MAP.lookup k1 = none ∧
      normalizeNode [("new_future_field", Json.num 1)] = .error (.valueError
        ("Unknown field in sinfo node output: " ++ k1))) ∧
    ∀ out, normalizeNode [("new_future_field", Json.num 1)] ≠ .ok out :=
  C1_unknown_field_fails [("new_future_field", .num 1)] "new_future_field"
    (by simp) rfl

/-- C2: for every raw node record whose every field key is registered,
normalization succeeds and the key set of the canonical record is exactly
the set of keys produced by the registered translators for those fields. -/
theorem C2_known_fields_exact_keys (src : List (String × Json))
    (hall : ∀ p ∈ src, (NODE_FIELD_MAP.lookup p.1).isSome = true) :
    ∃ out, normalizeNode src = .ok out ∧
      ∀ a, a ∈ out.map Prod.fst ↔ ∃ p ∈ src, ∃ t,
        NODE_FIELD_MAP.lookup p.1 = some t ∧ a ∈ t.outKeys p.1 :=
  normalizeNode_keys src hall

/-- Witness for C2 at a two-field record with a copied and a renamed
field. -/
theorem C2_witness :
    (∀ p ∈ ([("name", Json.str "node1"), ("real_memory", Json.num 1800)] :
        List (String × Json)), (NODE_FIELD_MAP.lookup p.1).isSome = true) ∧
    ∃ out, normalizeNode [("name", Json.str "node1"),
        ("real_memory", Json.num 1800)] = .ok out ∧
      ∀ a, a ∈ out.map Prod.fst ↔ ∃ p ∈ ([("name", Json.str "node1"),
          ("real_memory", Json.num 1800)] : List (String × Json)), ∃ t,
        NODE_FIELD_MAP.lookup p.1 = some t ∧ a ∈ t.outKeys p.1 :=
  ⟨by decide, C2_known_fields_exact_keys _ (by decide)⟩

/-- C3 counterexample: the report `{"nodes": {}}` has a `"nodes"` value that
is not a sequence, yet parsing raises nothing and simply yields no records —
the sequence-ness of the envelope value is not validated. -/
theorem C3_counterexample :
    (∀ elems : List Json, Json.obj ([] : List (String × Json)) ≠ Json.arr elems) ∧
    nodeReportRecords (Json.obj [("nodes", Json.obj [])]) = ⟨[], none⟩ :=
  ⟨fun _ h => Json.noConfusion h, rfl⟩

/-- C3 amended: parsing a report object whose top-level `"nodes"` key is
absent fails with a `KeyError` naming that key, before any record is
yielded; presence of the key is checked, but its value is not validated to
be a sequence. -/
theorem C3_missing_nodes_key (fields : List (String × Json))
    (h : fields.lookup "nodes" = none) :
    nodeReportRecords (Json.obj fields) = ⟨[], some (.keyError "nodes")⟩ := by
  simp only [nodeReportRecords, h]

/-- Witness for the amended C3 at the report `{"foo": 1}`. -/
theorem C3_witness :
    ([("foo", Json.num 1)] : List (String × Json)).lookup "nodes" = none ∧
    nodeReportRecords (Json.obj [("foo", Json.num 1)]) =
      ⟨[], some (.keyError "nodes")⟩ :=
  ⟨rfl, C3_missing_nodes_key _ rfl⟩

/-- C4: for a report whose `"nodes"` list is well-formed records followed by
a first record with an unknown field (and anything after it), consuming the
generator yields exactly the canonical forms of the leading records, in
order, before the failure on the offending record is observed. -/
theorem C4_lazy_prefix (fields : List (String × Json))
    (goods : List (List (String × Json))) (bad : List (String × Json))
    (rest : List Json)
    (hnodes : fields.lookup "nodes" =
      some (.arr (goods.map Json.obj ++ Json.obj bad :: rest)))
    (hgood : ∀ g ∈ goods, ∀ p ∈ g, (NODE_FIELD_MAP.lookup p.1).isSome = true)
    (k0 : String) (hk0 : k0 ∈ bad.map Prod.fst)
    (hunk : NODE_FIELD_MAP.lookup k0 = none) :
    ∃ outs e, List.Forall₂ (fun g o => normalizeNode g = Except.ok o) goods outs ∧
      nodeReportRecords (Json.obj fields) = ⟨outs, some e⟩ := by
  obtain ⟨outs, houts⟩ := exists_forall2_ok goods hgood
  obtain ⟨k1, _, _, herr⟩ := normalizeFields_error_of_unknown bad [] k0 hk0 hunk
  have herr' : normalizeNode bad = .error (.valueError
      ("Unknown field in sinfo node output: " ++ k1)) := herr
  refine ⟨outs, .valueError ("Unknown field in sinfo node output: " ++ k1),
    houts, ?_⟩
  simp only [nodeReportRecords, hnodes, pyIterate]
  exact runNodes_prefix_error goods outs bad rest _ houts herr'

/-- Witness for C4: a two-record report whose second record has the unknown
field. -/
theorem C4_witness :
    ∃ outs e, List.Forall₂ (fun g o => normalizeNode g = Except.ok o)
        [[("name", Json.str "n1")]] outs ∧
      nodeReportRecords (Json.obj [("nodes", Json.arr
        ([[("name", Json.str "n1")]].map Json.obj ++
          Json.obj [("new_future_field", Json.num 1)] :: ([] : List Json)))]) =
        ⟨outs, some e⟩ :=
  C4_lazy_prefix _ [[("name", Json.str "n1")]]
    [("new_future_field", Json.num 1)] [] rfl (by decide)
    "new_future_field" (by simp) rfl

/-- C5 counterexample: for a report whose second record has the unrecognized
field, parsing raises the unknown-field error naming it, but the first
canonical record HAS been yielded to the consumer — so "no canonical record
for that report is yielded" fails. -/
theorem C5_counterexample :
    nodeReportRecords (Json.obj [("nodes", Json.arr
      [Json.obj [("name", Json.str "n1")],
       Json.obj [("new_future_field", Json.num 1)]])]) =
      ⟨[[("name", Json.str "n1")]],
        some (.valueError "Unknown field in sinfo node output: new_future_field")⟩ ∧
    ([[("name", Json.str "n1")]] : List (List (String × Json))) ≠ [] :=
  ⟨rfl, by simp⟩

/-- C5 amended: for every report containing a node record with an
unrecognized field (every record before it being well-formed), parsing
raises the unknown-field error mentioning an unrecognized field of that
record, and no canonical record is yielded for the offending record or any
record after it — exactly the records preceding it are yielded. -/
theorem C5_error_names_field (fields : List (String × Json))
    (goods : List (List (String × Json))) (bad : List (String × Json))
    (rest : List Json)
    (hnodes : fields.lookup "nodes" =
      some (.arr (goods.map Json.obj ++ Json.obj bad :: rest)))
    (hgood : ∀ g ∈ goods, ∀ p ∈ g, (NODE_FIELD_MAP.lookup p.1).isSome = true)
    (k0 : String) (hk0 : k0 ∈ bad.map Prod.fst)
    (hunk : NODE_FIELD_MAP.lookup k0 = none) :
    ∃ outs k1, outs.length = goods.length ∧ k1 ∈ bad.map Prod.fst ∧
      NODE_FIELD_MAP.lookup k1 = none ∧
      nodeReportRecords (Json.obj fields) =
        ⟨outs, some (.valueError
          ("Unknown field in sinfo node output: " ++ k1))⟩ := by
  obtain ⟨outs, houts⟩ := exists_forall2_ok goods hgood
  obtain ⟨k1, hk1mem, hk1unk, herr⟩ :=
    normalizeFields_error_of_unknown bad [] k0 hk0 hunk
  have herr' : normalizeNode bad = .error (.valueError
      ("Unknown field in sinfo node output: " ++ k1)) := herr
  refine ⟨outs, k1, (List.Forall₂.length_eq houts).symm, hk1mem, hk1unk, ?_⟩
  simp only [nodeReportRecords, hnodes, pyIterate]
  exact runNodes_prefix_error goods outs bad rest _ houts herr'

/-- Witness for the amended C5: the offending record is the first one, so
zero records are yielded. -/
theorem C5_witness :
    ∃ outs k1, outs.length = ([] : List (List (String × Json))).length ∧
      k1 ∈ ([("new_future_field", Json.num 1)] :
        List (String × Json)).map Prod.fst ∧
      NODE_FIELD_MAP.lookup k1 = none ∧
      nodeReportRecords (Json.obj [("nodes", Json.arr
        (([] : List (List (String × Json))).map Json.obj ++
          Json.obj [("new_future_field", Json.num 1)] :: ([] : List Json)))]) =
        ⟨outs, some (.valueError
          ("Unknown field in sinfo node output: " ++ k1))⟩ :=
  C5_error_names_field _ [] [("new_future_field", Json.num 1)] [] rfl
    (by simp) "new_future_field" (by simp) rfl

/-- C6: parsing the report
`{"nodes": [{"name": "node1", "real_memory": 1800, "state": "down",
"architecture": "x86_64"}]}` yields exactly one canonical record
`{"name": "node1", "memory": 1800, "state": "down", "arch": "x86_64"}` and
finishes without error. -/
theorem C6_end_to_end :
    nodeReportRecords (Json.obj [("nodes", Json.arr [Json.obj
      [("name", Json.str "node1"), ("real_memory", Json.num 1800),
       ("state", Json.str "down"), ("architecture", Json.str "x86_64")]])]) =
      ⟨[[("name", Json.str "node1"), ("memory", Json.num 1800),
         ("state", Json.str "down"), ("arch", Json.str "x86_64")]], none⟩ :=
  rfl

/-- C7 counterexample: the literal claim "the value of an `ignore`-mapped
field never appears in the output record under any key" is false: in the raw
record `{"boards": 7, "cores": 7}` the ignored field's value `7` appears in
the output under `"cores"`, written there by the distinct copied field. -/
theorem C7_counterexample :
    ¬ (∀ (src out : List (String × Json)) (k : String) (v : Json),
        normalizeNode src = .ok out → (k, v) ∈ src →
        NODE_FIELD_MAP.lookup k = some .ignore →
        ∀ a, (a, v) ∉ out) := by
  intro h
  exact h [("boards", .num 7), ("cores", .num 7)] [("cores", .num 7)]
    "boards" (.num 7) rfl (by simp) rfl "cores" (by simp)

/-- C7 amended: a field mapped to the `ignore` translator contributes
nothing to the canonical record: normalizing any raw record gives exactly
the same result (success or failure) as normalizing the record with its
`ignore`-mapped fields removed. In particular the ignore translator itself
never stores its value under any key (an equal value may still appear via a
distinct non-ignored field). -/
theorem C7_ignored_fields_contribute_nothing (src : List (String × Json)) :
    normalizeNode src = normalizeNode (src.filter (fun p =>
      match NODE_FIELD_MAP.lookup p.1 with
      | some .ignore => false
      | _ => true)) :=
  normalizeFields_filter_ignore src []

/-- C8: a raw field registered `rename nk`, applied to value `v`, stores
exactly `{nk: v}` (the value unchanged), and after full normalization of a
duplicate-free record with only registered fields, the canonical record maps
`nk` to `v` and does not contain the original key. -/
theorem C8_rename_spec (src : List (String × Json)) (k nk : String) (v : Json)
    (hall : ∀ p ∈ src, (NODE_FIELD_MAP.lookup p.1).isSome = true)
    (hnd : (src.map Prod.fst).Nodup)
    (hmem : (k, v) ∈ src)
    (ht : NODE_FIELD_MAP.lookup k = some (.rename nk)) :
    Translator.apply (.rename nk) k v [] = [(nk, v)] ∧
    ∃ out, normalizeNode src = .ok out ∧
      out.lookup nk = some v ∧ out.lookup k = none :=
  ⟨rfl, rename_field_spec src k nk v hall hnd hmem ht⟩

/-- Witness for C8 at `{"real_memory": 1800}`, renamed to `memory`. -/
theorem C8_witness :
    Translator.apply (.rename "memory") "real_memory" (Json.num 1800) [] =
      [("memory", Json.num 1800)] ∧
    ∃ out, normalizeNode [("real_memory", Json.num 1800)] = .ok out ∧
      out.lookup "memory" = some (Json.num 1800) ∧
      out.lookup "real_memory" = none :=
  C8_rename_spec [("real_memory", Json.num 1800)] "real_memory" "memory"
    (Json.num 1800) (by decide) (by decide) (by simp) rfl

/-- C9 counterexample: `tres` is registered with the `copy` translator, so
the composite `key=value` aggregate string is stored verbatim as the raw
string — it is not decoded into a structured mapping. -/
theorem C9_counterexample :
    NODE_FIELD_MAP.lookup "tres" = some Translator.copy ∧
    normalizeNode [("tres", Json.str "cpu=40,mem=386618M,billing=96")] =
      .ok [("tres", Json.str "cpu=40,mem=386618M,billing=96")] :=
  ⟨rfl, rfl⟩

/-- C9 amended: the node registry maps `tres` to `copy`: for every
duplicate-free raw record with only registered fields containing `tres`
with value `v`, the canonical record stores the raw value `v` unchanged
under `tres` (deterministically — normalization is a pure function); no
`key=value` aggregate decode is performed by the node pipeline. -/
theorem C9_tres_copied_verbatim (src : List (String × Json)) (v : Json)
    (hall : ∀ p ∈ src, (NODE_FIELD_MAP.lookup p.1).isSome = true)
    (hnd : (src.map Prod.fst).Nodup)
    (hmem : ("tres", v) ∈ src) :
    ∃ out, normalizeNode src = .ok out ∧ out.lookup "tres" = some v :=
  copy_field_spec src "tres" v hall hnd hmem rfl

/-- Witness for the amended C9 at the aggregate string of the claim. -/
theorem C9_witness :
    ∃ out, normalizeNode
        [("tres", Json.str "cpu=40,mem=386618M,billing=96")] = .ok out ∧
      out.lookup "tres" = some (Json.str "cpu=40,mem=386618M,billing=96") :=
  C9_tres_copied_verbatim [("tres", Json.str "cpu=40,mem=386618M,billing=96")]
    (Json.str "cpu=40,mem=386618M,billing=96") (by decide) (by decide)
    (by simp)

/-- C10: for every duplicate-free raw node record with only registered
fields containing `"address"` with value `v`, the canonical record stores
`v` under `"addr"` and contains no key `"address"` (despite the docstring
example showing `"address"` in the expected output). -/
theorem C10_address_renamed (src : List (String × Json)) (v : Json)
    (hall : ∀ p ∈ src, (NODE_FIELD_MAP.lookup p.1).isSome = true)
    (hnd : (src.map Prod.fst).Nodup)
    (hmem : ("address", v) ∈ src) :
    ∃ out, normalizeNode src = .ok out ∧
      out.lookup "addr" = some v ∧ out.lookup "address" = none :=
  rename_field_spec src "address" "addr" v hall hnd hmem rfl

/-- Witness for C10 at `{"name": "node_name", "address": "node_addr"}`. -/
theorem C10_witness :
    ∃ out, normalizeNode [("name", Json.str "node_name"),
        ("address", Json.str "node_addr")] = .ok out ∧
      out.lookup "addr" = some (Json.str "node_addr") ∧
      out.lookup "address" = none :=
  C10_address_renamed [("name", Json.str "node_name"),
      ("address", Json.str "node_addr")] (Json.str "node_addr")
    (by decide) (by decide) (by simp)

end Clockwork
